import Mathlib

/-!
Shallow embedding of the evaluation-repository and model-abstraction core of the
intelligence-layer SDK, together with proofs of its specified properties.

The embedded sources are
`src/intelligence_layer/evaluation/evaluation/in_memory_evaluation_repository.py`
and `src/intelligence_layer/core/model.py`.  Python dictionaries (insertion
ordered, unique keys) are embedded as association lists with an explicit
insertion-ordered update, `defaultdict(list)` behaviour is made explicit in the
store operation, and Python's stable `sorted` is embedded as Mathlib's stable
`List.insertionSort`.  Fallible accessors return `Except String`.
-/

namespace IL

/-- Modelled from the spec: `EvaluationOverview` is `{id: string (unique), ...run
metadata}` (its defining module is not among the sources at hand); the run
metadata is collapsed into one opaque string field. -/
structure EvaluationOverview where
  id : String
  metadata : String
deriving DecidableEq, Repr

/-- Modelled from the spec: `PartialEvaluationOverview` has the same shape as
`EvaluationOverview` but lives in a distinct id space and storage area. -/
structure PartialEvaluationOverview where
  id : String
  metadata : String
deriving DecidableEq, Repr

/-- Modelled from the spec: `ExampleEvaluation` is `{evaluation_id: string,
example_id: string, result: Evaluation payload}`; the payload type is the
parameter `E`. -/
structure ExampleEvaluation (E : Type) where
  evaluation_id : String
  example_id : String
  result : E
deriving DecidableEq, Repr

/-- Insertion-ordered dictionary update, as in Python 3.7+ `dict`: assigning to
an existing key replaces its value in place, a new key is appended at the end. -/
def dictSet (k : String) (v : α) : List (String × α) → List (String × α)
  | [] => [(k, v)]
  | (k', v') :: rest => if k' = k then (k, v) :: rest else (k', v') :: dictSet k v rest

/-- The keys of a dictionary, in insertion order (Python `d.keys()`). -/
def dictKeys (d : List (String × α)) : List String := d.map Prod.fst

/-- Point lookup (Python `d.get(k, None)`). -/
def dictGet (k : String) (d : List (String × α)) : Option α :=
  (d.find? fun kv => kv.1 = k).map Prod.snd

/-- The state of an `InMemoryEvaluationRepository`: the `defaultdict(list)` of
example evaluations keyed by evaluation id, and the dict of overviews. -/
structure InMemoryEvaluationRepository (E : Type) where
  _example_evaluations : List (String × List (ExampleEvaluation E))
  _evaluation_overviews : List (String × EvaluationOverview)
deriving DecidableEq, Repr

namespace InMemoryEvaluationRepository

variable {E : Type}

/-- `InMemoryEvaluationRepository.__init__`: both dictionaries start empty. -/
def empty : InMemoryEvaluationRepository E := ⟨[], []⟩

/-- `store_evaluation_overview`: upsert the overview by id, then initialise the
example-evaluation collection for the id if it is not yet a key. -/
def store_evaluation_overview (s : InMemoryEvaluationRepository E)
    (overview : EvaluationOverview) : InMemoryEvaluationRepository E :=
  let s' : InMemoryEvaluationRepository E :=
    { s with _evaluation_overviews := dictSet overview.id overview s._evaluation_overviews }
  if overview.id ∈ dictKeys s'._example_evaluations then s'
  else { s' with _example_evaluations := dictSet overview.id [] s'._example_evaluations }

/-- `evaluation_overview`: point lookup, `None` when the id is unknown. -/
def evaluation_overview (s : InMemoryEvaluationRepository E)
    (evaluation_id : String) : Option EvaluationOverview :=
  dictGet evaluation_id s._evaluation_overviews

/-- `evaluation_overview_ids`: `sorted(list(keys))`. -/
def evaluation_overview_ids (s : InMemoryEvaluationRepository E) : List String :=
  List.insertionSort (· ≤ ·) (dictKeys s._evaluation_overviews)

/-- `store_example_evaluation`: append to the per-overview collection; the
backing store is a `defaultdict(list)`, so a missing key is created with the
empty list before the append. -/
def store_example_evaluation (s : InMemoryEvaluationRepository E)
    (evaluation : ExampleEvaluation E) : InMemoryEvaluationRepository E :=
  let stored := (dictGet evaluation.evaluation_id s._example_evaluations).getD []
  { s with _example_evaluations :=
      dictSet evaluation.evaluation_id (stored ++ [evaluation]) s._example_evaluations }

/-- The comparison `lambda i: i.example_id` used by the repository's `sorted`. -/
def leByExampleId (a b : ExampleEvaluation E) : Prop := a.example_id ≤ b.example_id

instance : DecidableRel (leByExampleId (E := E)) := fun a b =>
  inferInstanceAs (Decidable (a.example_id ≤ b.example_id))

instance : IsTotal (ExampleEvaluation E) leByExampleId :=
  ⟨fun a b => le_total a.example_id b.example_id⟩

instance : IsTrans (ExampleEvaluation E) leByExampleId :=
  ⟨fun _ _ _ h₁ h₂ => le_trans h₁ h₂⟩

/-- The strict key comparison, used to deduce uniqueness of the sorted result
over pairwise-distinct example ids. -/
def ltByExampleId (a b : ExampleEvaluation E) : Prop := a.example_id < b.example_id

instance : IsAntisymm (ExampleEvaluation E) ltByExampleId :=
  ⟨fun _ _ h₁ h₂ => absurd h₂ (lt_asymm h₁)⟩

/-- `example_evaluations`: raise when the overview id is not a key of the
result store; otherwise return the stored results sorted by example id
(Python's `sorted` is stable, as is `insertionSort`). -/
def example_evaluations (s : InMemoryEvaluationRepository E)
    (evaluation_id : String) : Except String (List (ExampleEvaluation E)) :=
  if evaluation_id ∈ dictKeys s._example_evaluations then
    .ok (List.insertionSort leByExampleId
      ((dictGet evaluation_id s._example_evaluations).getD []))
  else
    .error ("Repository does not contain an evaluation with id: " ++ evaluation_id)

/-- `example_evaluation`: first result of the sorted collection whose example
id matches, `None` when none matches; the not-found error of
`example_evaluations` propagates. -/
def example_evaluation (s : InMemoryEvaluationRepository E)
    (evaluation_id example_id : String) :
    Except String (Option (ExampleEvaluation E)) :=
  (s.example_evaluations evaluation_id).map fun results =>
    results.find? fun r => r.example_id = example_id

end InMemoryEvaluationRepository

/-- The state of an `AsyncInMemoryEvaluationRepository`: the synchronous state
plus the dict of partial overviews. -/
structure AsyncInMemoryEvaluationRepository (E : Type) extends
    InMemoryEvaluationRepository E where
  _partial_evaluation_overviews : List (String × PartialEvaluationOverview)
deriving DecidableEq, Repr

namespace AsyncInMemoryEvaluationRepository

variable {E : Type}

/-- `AsyncInMemoryEvaluationRepository.__init__`. -/
def empty : AsyncInMemoryEvaluationRepository E :=
  { InMemoryEvaluationRepository.empty with _partial_evaluation_overviews := [] }

/-- `store_partial_evaluation_overview`: upsert the partial overview by id and
ensure the shared example-evaluation collection exists for the id. -/
def store_partial_evaluation_overview (s : AsyncInMemoryEvaluationRepository E)
    (overview : PartialEvaluationOverview) : AsyncInMemoryEvaluationRepository E :=
  let s' : AsyncInMemoryEvaluationRepository E :=
    { s with _partial_evaluation_overviews :=
        dictSet overview.id overview s._partial_evaluation_overviews }
  if overview.id ∈ dictKeys s'._example_evaluations then s'
  else
    let base := { s'.toInMemoryEvaluationRepository with
      _example_evaluations := dictSet overview.id [] s'._example_evaluations }
    { s' with toInMemoryEvaluationRepository := base }

/-- `partial_evaluation_overview`: point lookup, `None` when unknown. -/
def partial_evaluation_overview (s : AsyncInMemoryEvaluationRepository E)
    (evaluation_id : String) : Option PartialEvaluationOverview :=
  dictGet evaluation_id s._partial_evaluation_overviews

/-- `partial_evaluation_overview_ids`: `sorted(list(keys))`. -/
def partial_evaluation_overview_ids (s : AsyncInMemoryEvaluationRepository E) :
    List String :=
  List.insertionSort (· ≤ ·) (dictKeys s._partial_evaluation_overviews)

/-- The inherited `store_evaluation_overview`, acting on the shared state. -/
def store_evaluation_overview (s : AsyncInMemoryEvaluationRepository E)
    (overview : EvaluationOverview) : AsyncInMemoryEvaluationRepository E :=
  { s with toInMemoryEvaluationRepository :=
      s.toInMemoryEvaluationRepository.store_evaluation_overview overview }

/-- The inherited `store_example_evaluation`, acting on the shared state. -/
def store_example_evaluation (s : AsyncInMemoryEvaluationRepository E)
    (evaluation : ExampleEvaluation E) : AsyncInMemoryEvaluationRepository E :=
  { s with toInMemoryEvaluationRepository :=
      s.toInMemoryEvaluationRepository.store_example_evaluation evaluation }

/-- The inherited `example_evaluations`, reading the shared state. -/
def example_evaluations (s : AsyncInMemoryEvaluationRepository E)
    (evaluation_id : String) : Except String (List (ExampleEvaluation E)) :=
  s.toInMemoryEvaluationRepository.example_evaluations evaluation_id

end AsyncInMemoryEvaluationRepository

/-- A mutating operation of the synchronous repository; used to speak about
repository states reached by a history of stores ("never stored" = no operation
of the history carries the id). -/
inductive RepoOp (E : Type) where
  | storeOverview (o : EvaluationOverview)
  | storeExample (e : ExampleEvaluation E)
deriving DecidableEq, Repr

/-- The evaluation id an operation writes under. -/
def RepoOp.targetId : RepoOp E → String
  | .storeOverview o => o.id
  | .storeExample e => e.evaluation_id

/-- Run one operation on a repository state. -/
def applyOp (s : InMemoryEvaluationRepository E) : RepoOp E → InMemoryEvaluationRepository E
  | .storeOverview o => s.store_evaluation_overview o
  | .storeExample e => s.store_example_evaluation e

/-- Run a history of operations, oldest first. -/
def applyOps (ops : List (RepoOp E)) (s : InMemoryEvaluationRepository E) :
    InMemoryEvaluationRepository E :=
  ops.foldl applyOp s

/-- Store a list of example evaluations one after the other
(`store_example_evaluation` for each element, in list order). -/
def storeAll (l : List (ExampleEvaluation E)) (s : InMemoryEvaluationRepository E) :
    InMemoryEvaluationRepository E :=
  l.foldl InMemoryEvaluationRepository.store_example_evaluation s

/-- Store a list of example evaluations on the asynchronous repository. -/
def storeAllAsync (l : List (ExampleEvaluation E))
    (s : AsyncInMemoryEvaluationRepository E) : AsyncInMemoryEvaluationRepository E :=
  l.foldl AsyncInMemoryEvaluationRepository.store_example_evaluation s

/-- The parameter bundle of a completion request (`CompleteInput`, a frozen
pydantic model over the client's `CompletionRequest`); only the fields the
request shaping touches are modelled in full, `prompt` and `maximum_tokens`
stand for the remaining parameters.  `stop_sequences` is `Optional[List[str]]`
as in the client. -/
structure CompleteInput where
  prompt : String
  maximum_tokens : Nat
  stop_sequences : Option (List String)
deriving DecidableEq, Repr

/-- `Llama3InstructModel.EOT_TOKEN`. -/
def EOT_TOKEN : String := "<|eot_id|>"

/-- `Llama3InstructModel._add_eot_token_to_stop_sequences`.  The Python body
takes `params = input.__dict__`, which aliases the input's field dictionary:
`params["stop_sequences"].append(...)` mutates the list held by the caller's
input, and `params["stop_sequences"] = [...]` in the other branch rebinds the
entry of that same dictionary.  The embedding therefore returns a pair: the
first component is the shaped request built by `CompleteInput(**params)`, the
second is the caller's input as it stands after the call. -/
def add_eot_token_to_stop_sequences (input : CompleteInput) :
    CompleteInput × CompleteInput :=
  match input.stop_sequences with
  | some seqs =>
      if EOT_TOKEN ∈ seqs then
        ({ input with stop_sequences := some seqs }, input)
      else
        let seqs' := seqs ++ [EOT_TOKEN]
        ({ input with stop_sequences := some seqs' },
          { input with stop_sequences := some seqs' })
  | none =>
      ({ input with stop_sequences := some [EOT_TOKEN] },
        { input with stop_sequences := some [EOT_TOKEN] })

/-- The request `Llama3InstructModel.complete` sends onward to the base
completion path. -/
def shapedRequest (input : CompleteInput) : CompleteInput :=
  (add_eot_token_to_stop_sequences input).1

/-- The caller's input as it stands after `Llama3InstructModel.complete`
returned (the request shaping works on an alias of the input's fields). -/
def callerInputAfter (input : CompleteInput) : CompleteInput :=
  (add_eot_token_to_stop_sequences input).2

/-- One entry of the client's model registry (`models()` response), with the
fields `context_size` reads. -/
structure ModelInfo where
  name : String
  max_context_size : Nat
deriving DecidableEq, Repr

/-- `AlephAlphaModel.context_size`: first registry entry whose name matches the
configured name gives the result; `ValueError` when none matches. -/
def context_size (models_info : List ModelInfo) (name : String) : Except String Nat :=
  match models_info.find? (fun m => m.name = name) with
  | some m => .ok m.max_context_size
  | none => .error ("No matching model found for name " ++ name)

theorem dictGet_nil (k : String) : dictGet k ([] : List (String × α)) = none := rfl

theorem dictGet_cons (k k₀ : String) (v₀ : α) (rest : List (String × α)) :
    dictGet k ((k₀, v₀) :: rest) = if k₀ = k then some v₀ else dictGet k rest := by
  by_cases h : k₀ = k <;> simp [dictGet, h]

theorem dictKeys_nil : dictKeys ([] : List (String × α)) = [] := rfl

theorem dictKeys_cons (k₀ : String) (v₀ : α) (rest : List (String × α)) :
    dictKeys ((k₀, v₀) :: rest) = k₀ :: dictKeys rest := rfl

theorem dictSet_nil (k : String) (v : α) : dictSet k v [] = [(k, v)] := rfl

theorem dictSet_cons (k : String) (v : α) (k₀ : String) (v₀ : α)
    (rest : List (String × α)) :
    dictSet k v ((k₀, v₀) :: rest) =
      if k₀ = k then (k, v) :: rest else (k₀, v₀) :: dictSet k v rest := rfl

theorem dictGet_dictSet_self (k : String) (v : α) (d : List (String × α)) :
    dictGet k (dictSet k v d) = some v := by
  induction d with
  | nil => simp [dictSet_nil, dictGet_cons]
  | cons kv rest ih =>
    obtain ⟨k₀, v₀⟩ := kv
    rw [dictSet_cons]
    by_cases h : k₀ = k
    · simp [h, dictGet_cons]
    · simp [h, dictGet_cons, ih]

theorem dictGet_dictSet_ne (k k' : String) (v : α) (d : List (String × α))
    (h : k' ≠ k) : dictGet k' (dictSet k v d) = dictGet k' d := by
  have hks : ¬ k = k' := fun hc => h hc.symm
  induction d with
  | nil => simp [dictSet_nil, dictGet_cons, dictGet_nil, hks]
  | cons kv rest ih =>
    obtain ⟨k₀, v₀⟩ := kv
    rw [dictSet_cons]
    by_cases h₀ : k₀ = k
    · subst h₀
      simp [dictGet_cons, hks]
    · rw [if_neg h₀, dictGet_cons, dictGet_cons, ih]

theorem mem_dictKeys_dictSet (k k' : String) (v : α) (d : List (String × α)) :
    k' ∈ dictKeys (dictSet k v d) ↔ k' = k ∨ k' ∈ dictKeys d := by
  induction d with
  | nil => simp [dictSet_nil, dictKeys_cons, dictKeys_nil]
  | cons kv rest ih =>
    obtain ⟨k₀, v₀⟩ := kv
    rw [dictSet_cons]
    by_cases h₀ : k₀ = k
    · subst h₀
      simp [dictKeys_cons]
    · rw [if_neg h₀, dictKeys_cons, dictKeys_cons]
      simp [ih]
      tauto

theorem dictKeys_dictSet_of_mem (k : String) (v : α) (d : List (String × α))
    (h : k ∈ dictKeys d) : dictKeys (dictSet k v d) = dictKeys d := by
  induction d with
  | nil => simp [dictKeys_nil] at h
  | cons kv rest ih =>
    obtain ⟨k₀, v₀⟩ := kv
    rw [dictSet_cons]
    by_cases h₀ : k₀ = k
    · subst h₀
      simp [dictKeys_cons]
    · rw [dictKeys_cons] at h
      rcases List.mem_cons.mp h with hc | hmem

      · exact absurd hc.symm h₀
      · rw [if_neg h₀, dictKeys_cons, dictKeys_cons, ih hmem]

theorem dictKeys_dictSet_of_not_mem (k : String) (v : α) (d : List (String × α))
    (h : k ∉ dictKeys d) : dictKeys (dictSet k v d) = dictKeys d ++ [k] := by
  induction d with
  | nil => simp [dictSet_nil, dictKeys_cons, dictKeys_nil]
  | cons kv rest ih =>
    obtain ⟨k₀, v₀⟩ := kv
    rw [dictKeys_cons] at h
    have h₀ : ¬ k₀ = k := fun hc => h (hc ▸ List.mem_cons_self k₀ (dictKeys rest))
    have hrest : k ∉ dictKeys rest := fun hc => h (List.mem_cons_of_mem k₀ hc)
    rw [dictSet_cons, if_neg h₀, dictKeys_cons, dictKeys_cons, ih hrest,
      List.cons_append]

theorem dictGet_eq_none_iff (k : String) (d : List (String × α)) :
    dictGet k d = none ↔ k ∉ dictKeys d := by
  induction d with
  | nil => simp [dictGet_nil, dictKeys_nil]
  | cons kv rest ih =>
    obtain ⟨k₀, v₀⟩ := kv
    rw [dictGet_cons, dictKeys_cons]
    by_cases h₀ : k₀ = k
    · subst h₀
      simp
    · simp only [if_neg h₀, ih, List.mem_cons]
      constructor
      · intro hn hc
        rcases hc with hc | hc
        · exact h₀ hc.symm
        · exact hn hc
      · intro hn hc
        exact hn (Or.inr hc)

theorem dictGet_isSome_of_mem (k : String) (d : List (String × α))
    (h : k ∈ dictKeys d) : ∃ v, dictGet k d = some v := by
  rcases hv : dictGet k d with _ | v
  · exact absurd h ((dictGet_eq_none_iff k d).mp hv)
  · exact ⟨v, rfl⟩

theorem dictKeys_nodup_dictSet (k : String) (v : α) (d : List (String × α))
    (h : (dictKeys d).Nodup) : (dictKeys (dictSet k v d)).Nodup := by
  by_cases hk : k ∈ dictKeys d
  · rwa [dictKeys_dictSet_of_mem k v d hk]
  · rw [dictKeys_dictSet_of_not_mem k v d hk]
    simpa [List.nodup_append] using ⟨h, hk⟩

theorem dictSet_dictSet_self (k : String) (v w : α) (d : List (String × α)) :
    dictSet k v (dictSet k w d) = dictSet k v d := by
  induction d with
  | nil => simp [dictSet_nil, dictSet_cons]
  | cons kv rest ih =>
    obtain ⟨k₀, v₀⟩ := kv
    rw [dictSet_cons]
    by_cases h₀ : k₀ = k
    · subst h₀
      simp [dictSet_cons]
    · rw [if_neg h₀, dictSet_cons, if_neg h₀, dictSet_cons, if_neg h₀, ih]

namespace InMemoryEvaluationRepository

variable {E : Type}

theorem store_overview_overviews (s : InMemoryEvaluationRepository E)
    (o : EvaluationOverview) :
    (s.store_evaluation_overview o)._evaluation_overviews =
      dictSet o.id o s._evaluation_overviews := by
  by_cases h : o.id ∈ dictKeys s._example_evaluations <;>
    simp [store_evaluation_overview, h]

theorem store_overview_examples_of_mem (s : InMemoryEvaluationRepository E)
    (o : EvaluationOverview) (h : o.id ∈ dictKeys s._example_evaluations) :
    (s.store_evaluation_overview o)._example_evaluations = s._example_evaluations := by
  simp [store_evaluation_overview, h]

theorem store_overview_examples_of_not_mem (s : InMemoryEvaluationRepository E)
    (o : EvaluationOverview) (h : o.id ∉ dictKeys s._example_evaluations) :
    (s.store_evaluation_overview o)._example_evaluations =
      dictSet o.id [] s._example_evaluations := by
  simp [store_evaluation_overview, h]

theorem mem_examples_store_overview (s : InMemoryEvaluationRepository E)
    (o : EvaluationOverview) :
    o.id ∈ dictKeys (s.store_evaluation_overview o)._example_evaluations := by
  by_cases h : o.id ∈ dictKeys s._example_evaluations
  · rwa [store_overview_examples_of_mem s o h]
  · rw [store_overview_examples_of_not_mem s o h]
    exact (mem_dictKeys_dictSet o.id o.id [] s._example_evaluations).mpr (Or.inl rfl)

theorem store_example_examples (s : InMemoryEvaluationRepository E)
    (e : ExampleEvaluation E) :
    (s.store_example_evaluation e)._example_evaluations =
      dictSet e.evaluation_id
        ((dictGet e.evaluation_id s._example_evaluations).getD [] ++ [e])
        s._example_evaluations := rfl

theorem store_example_overviews (s : InMemoryEvaluationRepository E)
    (e : ExampleEvaluation E) :
    (s.store_example_evaluation e)._evaluation_overviews =
      s._evaluation_overviews := rfl

theorem example_evaluations_of_mem (s : InMemoryEvaluationRepository E)
    (id : String) (h : id ∈ dictKeys s._example_evaluations) :
    s.example_evaluations id =
      Except.ok (List.insertionSort leByExampleId
        ((dictGet id s._example_evaluations).getD [])) := by
  unfold example_evaluations
  rw [if_pos h]

theorem example_evaluations_of_not_mem (s : InMemoryEvaluationRepository E)
    (id : String) (h : id ∉ dictKeys s._example_evaluations) :
    s.example_evaluations id =
      Except.error ("Repository does not contain an evaluation with id: " ++ id) := by
  unfold example_evaluations
  rw [if_neg h]

end InMemoryEvaluationRepository

/-- C1: for every `EvaluationOverview` `o`, immediately after
`store_evaluation_overview o` on an `InMemoryEvaluationRepository`,
`evaluation_overview o.id` returns `o`, `example_evaluations o.id` returns a
sequence rather than an error, and that sequence is empty whenever nothing had
been stored under `o.id` before. -/
theorem store_evaluation_overview_then_lookup {E : Type}
    (s : InMemoryEvaluationRepository E) (o : EvaluationOverview) :
    (s.store_evaluation_overview o).evaluation_overview o.id = some o ∧
    (∃ l, (s.store_evaluation_overview o).example_evaluations o.id = Except.ok l) ∧
    (o.id ∉ dictKeys s._example_evaluations →
      (s.store_evaluation_overview o).example_evaluations o.id = Except.ok []) := by
  refine ⟨?_, ?_, ?_⟩
  · unfold InMemoryEvaluationRepository.evaluation_overview
    rw [InMemoryEvaluationRepository.store_overview_overviews, dictGet_dictSet_self]
  · exact ⟨_, (s.store_evaluation_overview o).example_evaluations_of_mem o.id
      (InMemoryEvaluationRepository.mem_examples_store_overview s o)⟩
  · intro h
    rw [(s.store_evaluation_overview o).example_evaluations_of_mem o.id
      (InMemoryEvaluationRepository.mem_examples_store_overview s o),
      InMemoryEvaluationRepository.store_overview_examples_of_not_mem s o h,
      dictGet_dictSet_self]
    rfl

/-- Witness for C1 at a concrete overview and the empty repository. -/
theorem store_evaluation_overview_then_lookup_witness :
    (((InMemoryEvaluationRepository.empty (E := Nat)).store_evaluation_overview
        ⟨"eval-1", "run"⟩).evaluation_overview "eval-1" = some ⟨"eval-1", "run"⟩) ∧
    (((InMemoryEvaluationRepository.empty (E := Nat)).store_evaluation_overview
        ⟨"eval-1", "run"⟩).example_evaluations "eval-1" = Except.ok []) := by
  have h := store_evaluation_overview_then_lookup
    (InMemoryEvaluationRepository.empty (E := Nat)) ⟨"eval-1", "run"⟩
  exact ⟨h.1, h.2.2 (by decide)⟩

theorem not_mem_keys_applyOp {E : Type} (s : InMemoryEvaluationRepository E)
    (op : RepoOp E) (id : String)
    (hex : id ∉ dictKeys s._example_evaluations)
    (hov : id ∉ dictKeys s._evaluation_overviews)
    (hop : op.targetId ≠ id) :
    id ∉ dictKeys (applyOp s op)._example_evaluations ∧
    id ∉ dictKeys (applyOp s op)._evaluation_overviews := by
  cases op with
  | storeOverview o =>
    have hid : id ≠ o.id := fun hc => hop (hc ▸ rfl)
    constructor
    · by_cases hm : o.id ∈ dictKeys s._example_evaluations
      · rwa [applyOp, InMemoryEvaluationRepository.store_overview_examples_of_mem s o hm]
      · rw [applyOp, InMemoryEvaluationRepository.store_overview_examples_of_not_mem s o hm]
        intro hmem
        rcases (mem_dictKeys_dictSet o.id id [] s._example_evaluations).mp hmem with hc | hc
        · exact hid hc
        · exact hex hc
    · rw [applyOp, InMemoryEvaluationRepository.store_overview_overviews]
      intro hmem
      rcases (mem_dictKeys_dictSet o.id id o s._evaluation_overviews).mp hmem with hc | hc
      · exact hid hc
      · exact hov hc
  | storeExample e =>
    have hid : id ≠ e.evaluation_id := fun hc => hop (hc ▸ rfl)
    constructor
    · rw [applyOp, InMemoryEvaluationRepository.store_example_examples]
      intro hmem
      rcases (mem_dictKeys_dictSet e.evaluation_id id _ s._example_evaluations).mp hmem
        with hc | hc
      · exact hid hc
      · exact hex hc
    · rwa [applyOp, InMemoryEvaluationRepository.store_example_overviews]

theorem not_mem_keys_applyOps {E : Type} (ops : List (RepoOp E))
    (s : InMemoryEvaluationRepository E) (id : String)
    (hex : id ∉ dictKeys s._example_evaluations)
    (hov : id ∉ dictKeys s._evaluation_overviews)
    (hops : ∀ op ∈ ops, RepoOp.targetId op ≠ id) :
    id ∉ dictKeys (applyOps ops s)._example_evaluations ∧
    id ∉ dictKeys (applyOps ops s)._evaluation_overviews := by
  induction ops generalizing s with
  | nil => exact ⟨hex, hov⟩
  | cons op rest ih =>
    have hstep := not_mem_keys_applyOp s op id hex hov
      (hops op (List.mem_cons_self op rest))
    exact ih (applyOp s op) hstep.1 hstep.2
      fun op' hmem => hops op' (List.mem_cons_of_mem op hmem)

/-- C2: for an overview id never stored by any operation of the repository's
history, `example_evaluations` raises the not-found error while
`evaluation_overview` returns `none`. -/
theorem never_stored_id_lookups {E : Type} (ops : List (RepoOp E)) (id : String)
    (hops : ∀ op ∈ ops, RepoOp.targetId op ≠ id) :
    (applyOps ops InMemoryEvaluationRepository.empty).example_evaluations id =
      Except.error ("Repository does not contain an evaluation with id: " ++ id) ∧
    (applyOps ops InMemoryEvaluationRepository.empty).evaluation_overview id = none := by
  have h := not_mem_keys_applyOps ops InMemoryEvaluationRepository.empty id
    (by simp [InMemoryEvaluationRepository.empty, dictKeys_nil])
    (by simp [InMemoryEvaluationRepository.empty, dictKeys_nil])
    hops
  refine ⟨InMemoryEvaluationRepository.example_evaluations_of_not_mem _ id h.1, ?_⟩
  unfold InMemoryEvaluationRepository.evaluation_overview
  exact (dictGet_eq_none_iff id _).mpr h.2

/-- Witness for C2: a one-operation history that stores under a different id. -/
theorem never_stored_id_lookups_witness :
    (applyOps [RepoOp.storeOverview (E := Nat) ⟨"other", "run"⟩]
        InMemoryEvaluationRepository.empty).example_evaluations "eval-x" =
      Except.error ("Repository does not contain an evaluation with id: " ++ "eval-x") ∧
    (applyOps [RepoOp.storeOverview (E := Nat) ⟨"other", "run"⟩]
        InMemoryEvaluationRepository.empty).evaluation_overview "eval-x" = none := by
  exact never_stored_id_lookups [RepoOp.storeOverview ⟨"other", "run"⟩] "eval-x"
    (by intro op hmem; simp at hmem; subst hmem; decide)

theorem mem_dictKeys_of_dictGet_some {k : String} {d : List (String × α)} {v : α}
    (hv : dictGet k d = some v) : k ∈ dictKeys d := by
  by_contra h
  rw [(dictGet_eq_none_iff k d).mpr h] at hv
  exact Option.noConfusion hv

namespace InMemoryEvaluationRepository

theorem dictGet_storeAll {E : Type} (l : List (ExampleEvaluation E))
    (s : InMemoryEvaluationRepository E) (id : String) (cur : List (ExampleEvaluation E))
    (hl : ∀ e ∈ l, e.evaluation_id = id)
    (hcur : dictGet id s._example_evaluations = some cur) :
    dictGet id (storeAll l s)._example_evaluations = some (cur ++ l) := by
  induction l generalizing s cur with
  | nil => simpa [storeAll] using hcur
  | cons e rest ih =>
    have hid : e.evaluation_id = id := hl e (List.mem_cons_self e rest)
    have hstep : dictGet id (s.store_example_evaluation e)._example_evaluations =
        some (cur ++ [e]) := by
      rw [InMemoryEvaluationRepository.store_example_examples, hid, hcur,
        dictGet_dictSet_self]
      rfl
    have hrest : ∀ e' ∈ rest, e'.evaluation_id = id :=
      fun e' hmem => hl e' (List.mem_cons_of_mem e hmem)
    have := ih (s.store_example_evaluation e) (cur ++ [e]) hrest hstep
    simpa [storeAll, List.append_assoc] using this

theorem sorted_lt_of_sorted_le_nodup {E : Type} (l : List (ExampleEvaluation E))
    (hs : List.Sorted (leByExampleId (E := E)) l)
    (hn : (l.map ExampleEvaluation.example_id).Nodup) :
    List.Sorted (ltByExampleId (E := E)) l := by
  have hne : List.Pairwise
      (fun a b : ExampleEvaluation E => a.example_id ≠ b.example_id) l :=
    List.pairwise_map.mp hn
  exact (hs.and hne).imp fun h => lt_of_le_of_ne h.1 h.2

theorem insertionSort_eq_of_perm {E : Type} (l₁ l₂ : List (ExampleEvaluation E))
    (hperm : l₁.Perm l₂) (hn : (l₁.map ExampleEvaluation.example_id).Nodup) :
    List.insertionSort leByExampleId l₁ = List.insertionSort leByExampleId l₂ := by
  have hp : (List.insertionSort leByExampleId l₁).Perm
      (List.insertionSort leByExampleId l₂) :=
    (List.perm_insertionSort _ l₁).trans
      (hperm.trans (List.perm_insertionSort _ l₂).symm)
  have hn₁ : ((List.insertionSort leByExampleId l₁).map
      ExampleEvaluation.example_id).Nodup :=
    (((List.perm_insertionSort leByExampleId l₁).map
      ExampleEvaluation.example_id).nodup_iff).mpr hn
  have hn₂ : ((List.insertionSort leByExampleId l₂).map
      ExampleEvaluation.example_id).Nodup :=
    ((hp.map ExampleEvaluation.example_id).nodup_iff).mp hn₁
  exact List.eq_of_perm_of_sorted hp
    (sorted_lt_of_sorted_le_nodup _ (List.sorted_insertionSort _ l₁) hn₁)
    (sorted_lt_of_sorted_le_nodup _ (List.sorted_insertionSort _ l₂) hn₂)

/-- C3: from a state whose result collection under `id` is empty, storing a
sequence of example evaluations with pairwise-distinct example ids (all carrying
evaluation id `id`) in either of two insertion orders makes
`example_evaluations id` return one and the same result: exactly those `N`
values, sorted ascending by example id. -/
theorem store_examples_sorted_independent_of_order {E : Type}
    (s : InMemoryEvaluationRepository E) (id : String)
    (l₁ l₂ : List (ExampleEvaluation E))
    (hperm : l₁.Perm l₂)
    (hl : ∀ e ∈ l₁, e.evaluation_id = id)
    (hn : (l₁.map ExampleEvaluation.example_id).Nodup)
    (hbase : dictGet id s._example_evaluations = some []) :
    ∃ res, (storeAll l₁ s).example_evaluations id = Except.ok res ∧
      (storeAll l₂ s).example_evaluations id = Except.ok res ∧
      res.length = l₁.length ∧ res.Perm l₁ ∧
      List.Sorted (leByExampleId (E := E)) res := by
  have hl₂ : ∀ e ∈ l₂, e.evaluation_id = id :=
    fun e hmem => hl e (hperm.mem_iff.mpr hmem)
  have hget₁ := dictGet_storeAll l₁ s id [] hl hbase
  have hget₂ := dictGet_storeAll l₂ s id [] hl₂ hbase
  rw [List.nil_append] at hget₁ hget₂
  have hread₁ := InMemoryEvaluationRepository.example_evaluations_of_mem
    (storeAll l₁ s) id (mem_dictKeys_of_dictGet_some hget₁)
  have hread₂ := InMemoryEvaluationRepository.example_evaluations_of_mem
    (storeAll l₂ s) id (mem_dictKeys_of_dictGet_some hget₂)
  rw [hget₁] at hread₁
  rw [hget₂] at hread₂
  refine ⟨List.insertionSort leByExampleId l₁, hread₁, ?_, ?_, ?_, ?_⟩
  · rw [hread₂, insertionSort_eq_of_perm l₁ l₂ hperm hn]
    rfl
  · exact (List.perm_insertionSort _ l₁).length_eq
  · exact List.perm_insertionSort _ l₁
  · exact List.sorted_insertionSort _ l₁

/-- Witness for C3, the spec's scenario: results for examples `"b"` then `"a"`
under overview `"eval-1"`, in the two insertion orders. -/
theorem store_examples_sorted_independent_of_order_witness :
    ∃ res, (storeAll [⟨"eval-1", "b", 2⟩, ⟨"eval-1", "a", 1⟩]
        ((InMemoryEvaluationRepository.empty (E := Nat)).store_evaluation_overview
          ⟨"eval-1", "run"⟩)).example_evaluations "eval-1" = Except.ok res ∧
      (storeAll [⟨"eval-1", "a", 1⟩, ⟨"eval-1", "b", 2⟩]
        ((InMemoryEvaluationRepository.empty (E := Nat)).store_evaluation_overview
          ⟨"eval-1", "run"⟩)).example_evaluations "eval-1" = Except.ok res ∧
      res.length = [(⟨"eval-1", "b", 2⟩ : ExampleEvaluation Nat),
        ⟨"eval-1", "a", 1⟩].length ∧
      res.Perm [⟨"eval-1", "b", 2⟩, ⟨"eval-1", "a", 1⟩] ∧
      List.Sorted (leByExampleId (E := Nat)) res :=
  store_examples_sorted_independent_of_order _ "eval-1"
    [⟨"eval-1", "b", 2⟩, ⟨"eval-1", "a", 1⟩] [⟨"eval-1", "a", 1⟩, ⟨"eval-1", "b", 2⟩]
    (by decide) (by decide) (by decide) (by decide)

/-- C6: storing an example evaluation under an overview id never registered
silently registers that id in the result store: `example_evaluations` then
succeeds with the stored result, while `evaluation_overview` still returns
`none`. -/
theorem store_example_registers_unknown_id {E : Type}
    (s : InMemoryEvaluationRepository E) (e : ExampleEvaluation E)
    (hex : e.evaluation_id ∉ dictKeys s._example_evaluations)
    (hov : e.evaluation_id ∉ dictKeys s._evaluation_overviews) :
    (s.store_example_evaluation e).example_evaluations e.evaluation_id =
      Except.ok [e] ∧
    (s.store_example_evaluation e).evaluation_overview e.evaluation_id = none := by
  have hnone : dictGet e.evaluation_id s._example_evaluations = none :=
    (dictGet_eq_none_iff _ _).mpr hex
  have hget : dictGet e.evaluation_id
      (s.store_example_evaluation e)._example_evaluations = some [e] := by
    rw [store_example_examples, hnone, dictGet_dictSet_self]
    rfl
  constructor
  · rw [example_evaluations_of_mem _ _ (mem_dictKeys_of_dictGet_some hget), hget]
    rfl
  · unfold evaluation_overview
    rw [store_example_overviews]
    exact (dictGet_eq_none_iff _ _).mpr hov

/-- Witness for C6 at a concrete example evaluation and the empty repository. -/
theorem store_example_registers_unknown_id_witness :
    ((InMemoryEvaluationRepository.empty (E := Nat)).store_example_evaluation
        ⟨"ghost", "ex-1", 5⟩).example_evaluations "ghost" =
      Except.ok [⟨"ghost", "ex-1", 5⟩] ∧
    ((InMemoryEvaluationRepository.empty (E := Nat)).store_example_evaluation
        ⟨"ghost", "ex-1", 5⟩).evaluation_overview "ghost" = none :=
  store_example_registers_unknown_id InMemoryEvaluationRepository.empty
    ⟨"ghost", "ex-1", 5⟩ (by decide) (by decide)

/-- C9: for a registered overview id, `example_evaluation` returns the first
result of the overview's sorted collection whose example id matches, and
returns `none` exactly when no stored result under that overview carries the
example id. -/
theorem example_evaluation_first_match {E : Type}
    (s : InMemoryEvaluationRepository E) (id ex : String)
    (h : id ∈ dictKeys s._example_evaluations) :
    ∃ results, s.example_evaluations id = Except.ok results ∧
      s.example_evaluation id ex =
        Except.ok (results.find? fun r => r.example_id = ex) ∧
      (s.example_evaluation id ex = Except.ok none ↔
        ∀ r ∈ results, r.example_id ≠ ex) := by
  have hread := example_evaluations_of_mem s id h
  refine ⟨_, hread, ?_, ?_⟩
  · unfold example_evaluation
    rw [hread]
    rfl
  · unfold example_evaluation
    rw [hread]
    constructor
    · intro hnone r hmem
      have : (List.insertionSort leByExampleId
          ((dictGet id s._example_evaluations).getD [])).find?
            (fun r => r.example_id = ex) = none := by
        have := congrArg (fun x : Except String (Option (ExampleEvaluation E)) =>
          match x with | Except.ok v => v | Except.error _ => none) hnone
        simpa [Except.map] using this
      have hall := List.find?_eq_none.mp this r hmem
      simpa using hall
    · intro hall
      have : (List.insertionSort leByExampleId
          ((dictGet id s._example_evaluations).getD [])).find?
            (fun r => r.example_id = ex) = none :=
        List.find?_eq_none.mpr fun r hmem => by simpa using hall r hmem
      simp [Except.map, this]

/-- Witness for C9: two stored results under `"eval-1"`, queried for a present
and for the matching example id. -/
theorem example_evaluation_first_match_witness :
    ∃ results, (storeAll [⟨"eval-1", "b", 2⟩, ⟨"eval-1", "a", 1⟩]
        (InMemoryEvaluationRepository.empty (E := Nat))).example_evaluations
          "eval-1" = Except.ok results ∧
      (storeAll [⟨"eval-1", "b", 2⟩, ⟨"eval-1", "a", 1⟩]
        (InMemoryEvaluationRepository.empty (E := Nat))).example_evaluation
          "eval-1" "a" =
        Except.ok (results.find? fun r => r.example_id = "a") ∧
      ((storeAll [⟨"eval-1", "b", 2⟩, ⟨"eval-1", "a", 1⟩]
        (InMemoryEvaluationRepository.empty (E := Nat))).example_evaluation
          "eval-1" "a" = Except.ok none ↔
        ∀ r ∈ results, r.example_id ≠ "a") :=
  example_evaluation_first_match _ "eval-1" "a" (by decide)

theorem repo_eq_of_fields {E : Type} (a b : InMemoryEvaluationRepository E)
    (h₁ : a._example_evaluations = b._example_evaluations)
    (h₂ : a._evaluation_overviews = b._evaluation_overviews) : a = b := by
  cases a
  cases b
  simp_all

theorem overview_keys_nodup_applyOps {E : Type} (ops : List (RepoOp E))
    (s : InMemoryEvaluationRepository E)
    (h : (dictKeys s._evaluation_overviews).Nodup) :
    (dictKeys (applyOps ops s)._evaluation_overviews).Nodup := by
  induction ops generalizing s with
  | nil => exact h
  | cons op rest ih =>
    refine ih (applyOp s op) ?_
    cases op with
    | storeOverview o =>
      rw [applyOp, store_overview_overviews]
      exact dictKeys_nodup_dictSet o.id o _ h
    | storeExample e =>
      rwa [applyOp, store_example_overviews]

/-- C8: `store_evaluation_overview` is an idempotent upsert by id (a repeated
store of the same overview leaves the state as after one store), and on every
state reached from the empty repository `evaluation_overview_ids` is
lexicographically sorted, free of duplicates, and holds exactly the stored
overview ids. -/
theorem store_overview_idempotent_and_sorted_ids {E : Type}
    (s : InMemoryEvaluationRepository E) (o : EvaluationOverview)
    (ops : List (RepoOp E)) :
    (s.store_evaluation_overview o).store_evaluation_overview o =
      s.store_evaluation_overview o ∧
    List.Sorted (· ≤ ·)
      (applyOps ops InMemoryEvaluationRepository.empty).evaluation_overview_ids ∧
    (applyOps ops InMemoryEvaluationRepository.empty).evaluation_overview_ids.Nodup ∧
    (∀ id, id ∈ (applyOps ops
        InMemoryEvaluationRepository.empty).evaluation_overview_ids ↔
      id ∈ dictKeys (applyOps ops
        InMemoryEvaluationRepository.empty)._evaluation_overviews) := by
  refine ⟨?_, ?_, ?_, ?_⟩
  · apply repo_eq_of_fields
    · rw [store_overview_examples_of_mem _ o (mem_examples_store_overview s o)]
    · rw [store_overview_overviews, store_overview_overviews,
        dictSet_dictSet_self]
  · exact List.sorted_insertionSort _ _
  · have hkeys := overview_keys_nodup_applyOps ops InMemoryEvaluationRepository.empty
      (by simp [InMemoryEvaluationRepository.empty, dictKeys_nil])
    exact ((List.perm_insertionSort _ _).nodup_iff).mpr hkeys
  · intro id
    exact (List.perm_insertionSort (α := String) (· ≤ ·) _).mem_iff

/-- Witness for C8: a double store of one overview on the empty repository and
a three-store history with a repeated id. -/
theorem store_overview_idempotent_and_sorted_ids_witness :
    (((InMemoryEvaluationRepository.empty
        (E := Nat)).store_evaluation_overview
          ⟨"eval-1", "run"⟩).store_evaluation_overview ⟨"eval-1", "run"⟩ =
      (InMemoryEvaluationRepository.empty
        (E := Nat)).store_evaluation_overview ⟨"eval-1", "run"⟩) ∧
    List.Sorted (· ≤ ·) (applyOps [RepoOp.storeOverview (E := Nat) ⟨"b", "x"⟩,
      RepoOp.storeOverview ⟨"a", "y"⟩, RepoOp.storeOverview ⟨"a", "z"⟩]
      InMemoryEvaluationRepository.empty).evaluation_overview_ids ∧
    (applyOps [RepoOp.storeOverview (E := Nat) ⟨"b", "x"⟩,
      RepoOp.storeOverview ⟨"a", "y"⟩, RepoOp.storeOverview ⟨"a", "z"⟩]
      InMemoryEvaluationRepository.empty).evaluation_overview_ids.Nodup ∧
    (∀ id, id ∈ (applyOps [RepoOp.storeOverview (E := Nat) ⟨"b", "x"⟩,
        RepoOp.storeOverview ⟨"a", "y"⟩, RepoOp.storeOverview ⟨"a", "z"⟩]
        InMemoryEvaluationRepository.empty).evaluation_overview_ids ↔
      id ∈ dictKeys (applyOps [RepoOp.storeOverview (E := Nat) ⟨"b", "x"⟩,
        RepoOp.storeOverview ⟨"a", "y"⟩, RepoOp.storeOverview ⟨"a", "z"⟩]
        InMemoryEvaluationRepository.empty)._evaluation_overviews) :=
  store_overview_idempotent_and_sorted_ids InMemoryEvaluationRepository.empty
    ⟨"eval-1", "run"⟩ [RepoOp.storeOverview ⟨"b", "x"⟩,
      RepoOp.storeOverview ⟨"a", "y"⟩, RepoOp.storeOverview ⟨"a", "z"⟩]

theorem example_evaluations_congr {E : Type} (a b : InMemoryEvaluationRepository E)
    (h : a._example_evaluations = b._example_evaluations) (id : String) :
    a.example_evaluations id = b.example_evaluations id := by
  unfold example_evaluations
  rw [h]

theorem mem_examples_storeAll {E : Type} (es : List (ExampleEvaluation E))
    (s : InMemoryEvaluationRepository E) (k : String)
    (h : k ∈ dictKeys s._example_evaluations) :
    k ∈ dictKeys (storeAll es s)._example_evaluations := by
  induction es generalizing s with
  | nil => exact h
  | cons e rest ih =>
    refine ih _ ?_
    rw [store_example_examples]
    exact (mem_dictKeys_dictSet _ _ _ _).mpr (Or.inr h)

end InMemoryEvaluationRepository

namespace AsyncInMemoryEvaluationRepository

theorem store_partial_examples_of_mem {E : Type}
    (s : AsyncInMemoryEvaluationRepository E) (p : PartialEvaluationOverview)
    (h : p.id ∈ dictKeys s._example_evaluations) :
    (s.store_partial_evaluation_overview p)._example_evaluations =
      s._example_evaluations := by
  simp [store_partial_evaluation_overview, h]

theorem store_partial_examples_of_not_mem {E : Type}
    (s : AsyncInMemoryEvaluationRepository E) (p : PartialEvaluationOverview)
    (h : p.id ∉ dictKeys s._example_evaluations) :
    (s.store_partial_evaluation_overview p)._example_evaluations =
      dictSet p.id [] s._example_evaluations := by
  simp [store_partial_evaluation_overview, h]

theorem mem_examples_after_partial_store {E : Type}
    (s : AsyncInMemoryEvaluationRepository E) (p : PartialEvaluationOverview) :
    p.id ∈ dictKeys (s.store_partial_evaluation_overview p)._example_evaluations := by
  by_cases h : p.id ∈ dictKeys s._example_evaluations
  · rwa [store_partial_examples_of_mem s p h]
  · rw [store_partial_examples_of_not_mem s p h]
    exact (mem_dictKeys_dictSet p.id p.id [] s._example_evaluations).mpr (Or.inl rfl)

theorem storeAllAsync_toBase {E : Type} (es : List (ExampleEvaluation E))
    (s : AsyncInMemoryEvaluationRepository E) :
    (storeAllAsync es s).toInMemoryEvaluationRepository =
      storeAll es s.toInMemoryEvaluationRepository := by
  induction es generalizing s with
  | nil => rfl
  | cons e rest ih =>
    have hstep : (s.store_example_evaluation e).toInMemoryEvaluationRepository =
        s.toInMemoryEvaluationRepository.store_example_evaluation e := rfl
    calc (storeAllAsync (e :: rest) s).toInMemoryEvaluationRepository
        = (storeAllAsync rest (s.store_example_evaluation e)).toInMemoryEvaluationRepository := rfl
      _ = storeAll rest (s.store_example_evaluation e).toInMemoryEvaluationRepository := ih _
      _ = storeAll (e :: rest) s.toInMemoryEvaluationRepository := by rw [hstep]; rfl

/-- C7: after `store_partial_evaluation_overview p` on an
`AsyncInMemoryEvaluationRepository`, `example_evaluations p.id` returns a
sequence rather than raising (the empty one when nothing had been stored under
`p.id`), and the example evaluations appended under `p.id` afterwards are
preserved by a later `store_evaluation_overview` with the same id: that store
leaves the listing unchanged. -/
theorem store_partial_overview_examples_preserved {E : Type}
    (s : AsyncInMemoryEvaluationRepository E) (p : PartialEvaluationOverview)
    (es : List (ExampleEvaluation E)) (o : EvaluationOverview) (ho : o.id = p.id) :
    (∃ l, (s.store_partial_evaluation_overview p).example_evaluations p.id =
      Except.ok l) ∧
    (p.id ∉ dictKeys s._example_evaluations →
      (s.store_partial_evaluation_overview p).example_evaluations p.id =
        Except.ok []) ∧
    ((storeAllAsync es
        (s.store_partial_evaluation_overview p)).store_evaluation_overview o).example_evaluations
      p.id =
      (storeAllAsync es (s.store_partial_evaluation_overview p)).example_evaluations
        p.id := by
  have hmem₁ := mem_examples_after_partial_store s p
  refine ⟨?_, ?_, ?_⟩
  · exact ⟨_, InMemoryEvaluationRepository.example_evaluations_of_mem
      (s.store_partial_evaluation_overview p).toInMemoryEvaluationRepository p.id hmem₁⟩
  · intro h
    show (s.store_partial_evaluation_overview p).toInMemoryEvaluationRepository.example_evaluations
        p.id = Except.ok []
    rw [InMemoryEvaluationRepository.example_evaluations_of_mem _ p.id hmem₁,
      store_partial_examples_of_not_mem s p h, dictGet_dictSet_self]
    rfl
  · have hmemt : p.id ∈ dictKeys
        (storeAllAsync es (s.store_partial_evaluation_overview p)).toInMemoryEvaluationRepository._example_evaluations := by
      rw [storeAllAsync_toBase]
      exact InMemoryEvaluationRepository.mem_examples_storeAll es _ p.id hmem₁
    show ((storeAllAsync es
        (s.store_partial_evaluation_overview p)).toInMemoryEvaluationRepository.store_evaluation_overview
          o).example_evaluations p.id =
      (storeAllAsync es
        (s.store_partial_evaluation_overview p)).toInMemoryEvaluationRepository.example_evaluations
          p.id
    exact InMemoryEvaluationRepository.example_evaluations_congr _ _
      (InMemoryEvaluationRepository.store_overview_examples_of_mem _ o
        (ho ▸ hmemt)) p.id

/-- Witness for C7 at a concrete partial overview, one appended example
evaluation, and a final overview with the same id. -/
theorem store_partial_overview_examples_preserved_witness :
    (∃ l, ((AsyncInMemoryEvaluationRepository.empty
        (E := Nat)).store_partial_evaluation_overview
          ⟨"run-1", "started"⟩).example_evaluations "run-1" = Except.ok l) ∧
    (((AsyncInMemoryEvaluationRepository.empty
        (E := Nat)).store_partial_evaluation_overview
          ⟨"run-1", "started"⟩).example_evaluations "run-1" = Except.ok []) ∧
    ((storeAllAsync [⟨"run-1", "a", 1⟩]
        ((AsyncInMemoryEvaluationRepository.empty
          (E := Nat)).store_partial_evaluation_overview
            ⟨"run-1", "started"⟩)).store_evaluation_overview
        ⟨"run-1", "done"⟩).example_evaluations "run-1" =
      (storeAllAsync [⟨"run-1", "a", 1⟩]
        ((AsyncInMemoryEvaluationRepository.empty
          (E := Nat)).store_partial_evaluation_overview
            ⟨"run-1", "started"⟩)).example_evaluations "run-1" := by
  have h := store_partial_overview_examples_preserved
    (AsyncInMemoryEvaluationRepository.empty (E := Nat)) ⟨"run-1", "started"⟩
    [⟨"run-1", "a", 1⟩] ⟨"run-1", "done"⟩ rfl
  exact ⟨h.1, h.2.1 (by decide), h.2.2⟩

end AsyncInMemoryEvaluationRepository

/-- C4 counterexample: a completion input whose stop-sequence list holds the
end-of-turn marker twice is shaped to a request that still holds it twice, not
exactly once — the claim's "exactly once" fails on such an input. -/
theorem shaped_request_eot_marker_counterexample :
    EOT_TOKEN ∈ [EOT_TOKEN, EOT_TOKEN] ∧
    ((shapedRequest ⟨"p", 64, some [EOT_TOKEN, EOT_TOKEN]⟩).stop_sequences.getD
      []).count EOT_TOKEN ≠ 1 := by
  decide

/-- C4 (amended): shaping an input with an empty stop-sequence list yields a
request whose stop-sequence list is exactly the one-element list holding the
end-of-turn marker; a list already containing the marker is passed through
unchanged, so no further copy of the marker is appended. -/
theorem shaped_request_eot_marker (input : CompleteInput) :
    (input.stop_sequences = some [] →
      (shapedRequest input).stop_sequences = some [EOT_TOKEN]) ∧
    (∀ seqs, input.stop_sequences = some seqs → EOT_TOKEN ∈ seqs →
      (shapedRequest input).stop_sequences = some seqs) := by
  constructor
  · intro h
    simp [shapedRequest, add_eot_token_to_stop_sequences, h]
  · intro seqs h hmem
    simp [shapedRequest, add_eot_token_to_stop_sequences, h, hmem]

/-- Witness for the amended C4 at an empty and at a marker-containing list. -/
theorem shaped_request_eot_marker_witness :
    ((⟨"p", 64, some []⟩ : CompleteInput).stop_sequences = some [] ∧
      (shapedRequest ⟨"p", 64, some []⟩).stop_sequences = some [EOT_TOKEN]) ∧
    (EOT_TOKEN ∈ [EOT_TOKEN] ∧
      (shapedRequest ⟨"p", 64, some [EOT_TOKEN]⟩).stop_sequences =
        some [EOT_TOKEN]) :=
  ⟨⟨rfl, (shaped_request_eot_marker ⟨"p", 64, some []⟩).1 rfl⟩,
    ⟨List.mem_cons_self EOT_TOKEN [],
      (shaped_request_eot_marker ⟨"p", 64, some [EOT_TOKEN]⟩).2 [EOT_TOKEN] rfl
        (List.mem_cons_self EOT_TOKEN [])⟩⟩

/-- C5 at the failing input: a completion input with an empty stop-sequence
list is mutated by the request shaping — afterwards the caller's input holds
the end-of-turn marker in its stop-sequence list, so the frozen input is not
left unchanged (`params = input.__dict__` aliases the input's fields). -/
theorem complete_mutates_frozen_input :
    callerInputAfter ⟨"p", 64, some []⟩ = ⟨"p", 64, some [EOT_TOKEN]⟩ ∧
    callerInputAfter ⟨"p", 64, some []⟩ ≠ ⟨"p", 64, some []⟩ := by
  decide

/-- C10: `context_size` fails with the `ValueError`-kind error exactly when the
configured model name is absent from the client's model registry, and returns
the matching registry entry's `max_context_size` when one is found. -/
theorem context_size_registry_lookup (models_info : List ModelInfo) (name : String) :
    (context_size models_info name =
        Except.error ("No matching model found for name " ++ name) ↔
      ∀ m ∈ models_info, m.name ≠ name) ∧
    (∀ m, models_info.find? (fun mi => mi.name = name) = some m →
      context_size models_info name = Except.ok m.max_context_size) := by
  constructor
  · constructor
    · intro h m hmem hname
      rcases hf : models_info.find? (fun mi => mi.name = name) with _ | m'
      · exact (List.find?_eq_none.mp hf m hmem) (by simp [hname])
      · rw [context_size, hf] at h
        exact Except.noConfusion h
    · intro hall
      have hf : models_info.find? (fun mi => mi.name = name) = none :=
        List.find?_eq_none.mpr fun m hmem => by simpa using hall m hmem
      rw [context_size, hf]
  · intro m hfind
    rw [context_size, hfind]

/-- Witness for C10: a one-entry registry, queried for an absent and for the
present model name. -/
theorem context_size_registry_lookup_witness :
    (context_size [⟨"luminous-base", 2048⟩] "missing-model" =
        Except.error ("No matching model found for name " ++ "missing-model") ↔
      ∀ m ∈ [(⟨"luminous-base", 2048⟩ : ModelInfo)], m.name ≠ "missing-model") ∧
    context_size [⟨"luminous-base", 2048⟩] "luminous-base" = Except.ok 2048 :=
  ⟨(context_size_registry_lookup [⟨"luminous-base", 2048⟩] "missing-model").1,
    (context_size_registry_lookup [⟨"luminous-base", 2048⟩] "luminous-base").2
      ⟨"luminous-base", 2048⟩ (by decide)⟩

end IL
